import Mathlib

/-!
Shared cart script (`shared_cart_js_file.js`): embedding and verification.

The script keeps a module-level `cart` array, mirrors it into `sessionStorage`
under the key `bioshield-cart`, and re-renders a badge, an item list and a total.

Modelling conventions.

* `cart` is a `List LineItem`; the in-place mutations of the script
  (`existingItem.quantity += 1`, `item.quantity += change`) rewrite the first
  element `Array.prototype.find` returns.
* `quantity` is a mathematical integer (`Int`).
* Every other script number (`id`, prices, totals) is an ECMAScript Number,
  modelled by `JSNum`: IEEE-754 binary64 with round-to-nearest, ties-to-even.
  The two zeros are identified; nothing in the script distinguishes them
  (`toFixed` prints both as `0.00`, `===` equates them, no division occurs).
* The browser built-ins `Date.now`, `Math.random`, `JSON.stringify` and
  `JSON.parse` are inputs: the first two are arguments of `addToCart`, the last
  two are fields of `Host`, as is the presence of each DOM element.
-/

namespace BioShield

/-! ## ECMAScript Number values -/

/-- An ECMAScript Number: `NaN`, a signed infinity, or a finite value. -/
inductive JSNum where
  | nan : JSNum
  | inf (neg : Bool) : JSNum
  | fin (q : ℚ) : JSNum
  deriving DecidableEq

/-- Halving loop behind `natLog2`. -/
def log2Fuel : Nat → Nat → Nat
  | 0, _ => 0
  | fuel + 1, n => if n < 2 then 0 else log2Fuel fuel (n / 2) + 1

/-- Floor of the base-2 logarithm of a positive natural number. -/
def natLog2 (n : Nat) : Nat := log2Fuel n n

/-- Floor of the base-2 logarithm of a positive rational. -/
def ilog2 (a : ℚ) : Int :=
  let e0 : Int := (natLog2 a.num.natAbs : Int) - (natLog2 a.den : Int)
  if (2 : ℚ) ^ e0 ≤ a then e0 else e0 - 1

/-- Nearest integer, ties to the even neighbour. -/
def roundHalfEven (x : ℚ) : Int :=
  let f := ⌊x⌋
  let r := x - f
  if r < 1 / 2 then f
  else if 1 / 2 < r then f + 1
  else if f % 2 = 0 then f else f + 1

/-- Rounding of an exact real (here rational) result to binary64: 53-bit
significand, minimum exponent -1022 (gradual underflow), overflow to infinity. -/
def roundDouble (q : ℚ) : JSNum :=
  if q = 0 then JSNum.fin 0 else
  let a := |q|
  let e := max (ilog2 a) (-1022)
  let ulp : ℚ := (2 : ℚ) ^ (e - 52)
  let r := (roundHalfEven (a / ulp) : ℚ) * ulp
  if (2 : ℚ) ^ (1024 : Nat) ≤ r then JSNum.inf (decide (q < 0))
  else JSNum.fin (if q < 0 then -r else r)

namespace JSNum

/-- Number addition, the script operator `+` on two Numbers. -/
def add : JSNum → JSNum → JSNum
  | nan, _ => nan
  | _, nan => nan
  | inf a, inf b => if a = b then inf a else nan
  | inf a, fin _ => inf a
  | fin _, inf b => inf b
  | fin x, fin y => roundDouble (x + y)

/-- Number multiplication, the script operator `*`. -/
def mul : JSNum → JSNum → JSNum
  | nan, _ => nan
  | _, nan => nan
  | inf a, inf b => inf (a != b)
  | inf a, fin y => if y = 0 then nan else inf (a != decide (y < 0))
  | fin x, inf b => if x = 0 then nan else inf (decide (x < 0) != b)
  | fin x, fin y => roundDouble (x * y)

/-- Strict equality `===` on two Numbers: `NaN` equals nothing. -/
def strictEq : JSNum → JSNum → Bool
  | nan, _ => false
  | _, nan => false
  | inf a, inf b => a == b
  | fin x, fin y => decide (x = y)
  | _, _ => false

/-- The Number holding an integer quantity. -/
def ofInt (n : Int) : JSNum := roundDouble n

end JSNum

/-! ## `parseFloat` and `Number.prototype.toFixed` -/

/-- Code points removed by `TrimString`: ECMAScript `WhiteSpace` and
`LineTerminator`. -/
def isStrWhiteSpaceChar (c : Char) : Bool :=
  let n := c.toNat
  n = 0x9 || n = 0xA || n = 0xB || n = 0xC || n = 0xD || n = 0x20 || n = 0xA0 ||
  n = 0x1680 || (0x2000 ≤ n && n ≤ 0x200A) || n = 0x2028 || n = 0x2029 ||
  n = 0x202F || n = 0x205F || n = 0x3000 || n = 0xFEFF

/-- Value of a run of decimal digits. -/
def digitsValue (ds : List Char) : Nat :=
  ds.foldl (fun acc c => 10 * acc + (c.toNat - 48)) 0

/-- Whether the text `cs` begins with the characters `ps`. -/
def startsWith : List Char → List Char → Bool
  | [], _ => true
  | _ :: _, [] => false
  | p :: ps, c :: cs => p == c && startsWith ps cs

/-- Value of `SignedInteger` when `ds` begins with a digit, else no exponent. -/
def exponentDigits (neg : Bool) (ds : List Char) : Int :=
  let run := ds.takeWhile Char.isDigit
  if run = [] then 0
  else if neg then -(digitsValue run : Int) else (digitsValue run : Int)

/-- The `ExponentPart` at the head of `t`, if one is complete; 0 otherwise. -/
def exponentPart (t : List Char) : Int :=
  match t with
  | [] => 0
  | c :: r =>
    if c = 'e' ∨ c = 'E' then
      match r with
      | '+' :: ds => exponentDigits false ds
      | '-' :: ds => exponentDigits true ds
      | ds => exponentDigits false ds
    else 0

/-- Outcome of reading a `StrDecimalLiteral` off the front of a text. -/
inductive StrNumeric where
  | notNumeric : StrNumeric
  | infinity (neg : Bool) : StrNumeric
  | decimal (mv : ℚ) : StrNumeric
  deriving DecidableEq

/-- Steps 2-5 of `parseFloat`: trim leading white space, take the longest
prefix that is a `StrDecimalLiteral`, and give its exact mathematical value. -/
def strDecimalLiteral (text : String) : StrNumeric :=
  let trimmed := text.toList.dropWhile isStrWhiteSpaceChar
  let signed : Bool × List Char :=
    match trimmed with
    | '-' :: r => (true, r)
    | '+' :: r => (false, r)
    | r => (false, r)
  let neg := signed.1
  let t := signed.2
  if startsWith "Infinity".toList t then StrNumeric.infinity neg
  else
    let intDigits := t.takeWhile Char.isDigit
    let afterInt := t.dropWhile Char.isDigit
    let fracDigits :=
      match afterInt with
      | '.' :: r => r.takeWhile Char.isDigit
      | _ => []
    let afterFrac :=
      match afterInt with
      | '.' :: r => r.dropWhile Char.isDigit
      | r => r
    if intDigits = [] ∧ fracDigits = [] then StrNumeric.notNumeric
    else
      let mantissa : ℚ := (digitsValue intDigits : ℚ) +
        (digitsValue fracDigits : ℚ) / (10 : ℚ) ^ fracDigits.length
      let mv : ℚ := mantissa * (10 : ℚ) ^ exponentPart afterFrac
      StrNumeric.decimal (if neg then -mv else mv)

/-- Global function `parseFloat`: the literal read by `strDecimalLiteral`,
rounded to binary64; `NaN` when the text has no numeric prefix. -/
def parseFloat (text : String) : JSNum :=
  match strDecimalLiteral text with
  | StrNumeric.notNumeric => JSNum.nan
  | StrNumeric.infinity neg => JSNum.inf neg
  | StrNumeric.decimal mv => roundDouble mv

/-- Candidates `(s, n)` with `k` digits for `Number::toString`: integers `s`
next to `a / 10^(n-k)` with `10^(k-1) ≤ s < 10^k` whose product with
`10^(n-k)` rounds back to `a`. -/
def toStringCandidates (a : ℚ) (k n : Nat) : List (Nat × Nat) :=
  let scale : ℚ := (10 : ℚ) ^ (n - k)
  let lo := ⌊a / scale⌋.toNat
  [lo, lo + 1].filterMap fun (s : Nat) =>
    if 10 ^ (k - 1) ≤ s ∧ s < 10 ^ k ∧ roundDouble ((s : ℚ) * scale) = JSNum.fin a
    then some (s, n) else none

/-- Of two candidates the one closer to `a`; on a tie the even `s`. -/
def closerCandidate (a : ℚ) (k : Nat) (c d : Nat × Nat) : Nat × Nat :=
  let dist (x : Nat × Nat) : ℚ := |(x.1 : ℚ) * (10 : ℚ) ^ (x.2 - k) - a|
  if dist c < dist d then c
  else if dist d < dist c then d
  else if c.1 % 2 = 0 then c else d

/-- Shortest digit string that reads back as `a`: tries `k = 1, 2, ...` digits. -/
def shortestDigits (a : ℚ) (intLen : Nat) : Nat → Nat → Nat × Nat
  | 0, k => (⌊a / (10 : ℚ) ^ (intLen - k)⌋.toNat, intLen)
  | fuel + 1, k =>
    match toStringCandidates a k intLen ++ toStringCandidates a k (intLen + 1) with
    | [] => shortestDigits a intLen fuel (k + 1)
    | c :: cs => cs.foldl (closerCandidate a k) c

/-- The case of `Number::toString` that `toFixed` reaches: a finite value
`a ≥ 10^21`, printed as `d.ddde+NN`. -/
def numberToString (a : ℚ) : String :=
  let intLen := (Nat.toDigits 10 ⌊a⌋.toNat).length
  let sn := shortestDigits a intLen 17 1
  let ds := Nat.toDigits 10 sn.1
  let expo := String.mk (Nat.toDigits 10 (sn.2 - 1))
  match ds with
  | [] => "0"
  | [d] => String.mk [d] ++ "e+" ++ expo
  | d :: rest => String.mk [d] ++ "." ++ String.mk rest ++ "e+" ++ expo

/-- Steps of `toFixed` for `f ≠ 0`: left-pad the digits `m` with zeros to
`f + 1` characters and put a decimal point before the last `f`. -/
def insertPoint (m : List Char) (f : Nat) : String :=
  let padded := List.replicate (f + 1 - m.length) '0' ++ m
  let k := padded.length
  String.mk (padded.take (k - f)) ++ "." ++ String.mk (padded.drop (k - f))

/-- Method `Number.prototype.toFixed(fractionDigits)` for `fractionDigits ≤ 100`
(the script always passes 2): non-finite values print by name, values of
magnitude at least `10^21` print as `Number::toString` does, and every other
value prints the integer nearest to `x * 10^f` (the larger on a tie) with a
decimal point before its last `f` digits. -/
def toFixed (x : JSNum) (fractionDigits : Nat) : String :=
  match x with
  | JSNum.nan => "NaN"
  | JSNum.inf false => "Infinity"
  | JSNum.inf true => "-Infinity"
  | JSNum.fin q =>
    let sign := if q < 0 then "-" else ""
    let a := if q < 0 then -q else q
    if (10 : ℚ) ^ (21 : Nat) ≤ a then sign ++ numberToString a
    else
      let n := ⌊a * (10 : ℚ) ^ fractionDigits + 1 / 2⌋.toNat
      let m := Nat.toDigits 10 n
      if fractionDigits = 0 then sign ++ String.mk m
      else sign ++ insertPoint m fractionDigits

/-! ## Data model -/

/-- The object built by the click handler from the data attributes of an
add-to-cart button. -/
structure Product where
  name : String
  price : String
  image : String
  deriving DecidableEq

/-- One entry of the `cart` array: the spread product plus `quantity` and `id`. -/
structure LineItem where
  name : String
  price : String
  image : String
  quantity : Int
  id : JSNum
  deriving DecidableEq

/-- Value of an element's `style.display`; `initial` is whatever the page
shipped with, before the script first assigned it. -/
inductive Display where
  | initial : Display
  | none : Display
  | flex : Display
  | block : Display
  deriving DecidableEq

/-- Content of `cartItems.innerHTML`: the page's own markup, the empty-cart
placeholder, or one `cart-item` row per line item, in order. -/
inductive ItemsMarkup where
  | initial : ItemsMarkup
  | emptyCart : ItemsMarkup
  | rows (items : List LineItem) : ItemsMarkup
  deriving DecidableEq

/-- The part of the document the script writes. -/
structure Dom where
  cartCountText : String
  cartCountDisplay : Display
  cartItemsHTML : ItemsMarkup
  cartSummaryDisplay : Display
  cartTotalText : String
  notificationShown : Bool
  cartModalDisplay : Display
  bodyOverflow : String
  deriving DecidableEq

/-- What the browser and the host page supply: which elements
`document.getElementById` found, and the JSON built-ins. `parse` returns
`none` where `JSON.parse` throws. -/
structure Host where
  cartCount : Bool
  cartItems : Bool
  cartTotal : Bool
  cartSummary : Bool
  cartNotification : Bool
  cartModal : Bool
  stringify : List LineItem → String
  parse : String → Option (List LineItem)

/-- Script state: the `cart` variable, the stored text under `bioshield-cart`
(`none` when `getItem` returns `null`), the document, and the messages shown
by `alert`. -/
structure State where
  cart : List LineItem
  storage : Option String
  dom : Dom
  alerts : List String
  deriving DecidableEq

/-! ## The script functions -/

/-- In-place update of the first element satisfying `p`, the object
`Array.prototype.find` hands back. -/
def mutateFirst (p : LineItem → Bool) (f : LineItem → LineItem) : List LineItem → List LineItem
  | [] => []
  | item :: rest => if p item then f item :: rest else item :: mutateFirst p f rest

/-- Script function `loadCart` (lines 6-15). -/
def loadCart (h : Host) (s : State) : State :=
  match s.storage with
  | none => s
  | some savedCart =>
    if savedCart = "" then s
    else
      match h.parse savedCart with
      | some parsed => { s with cart := parsed }
      | none => { s with cart := [] }

/-- Script function `saveCart` (lines 18-20). -/
def saveCart (h : Host) (s : State) : State :=
  { s with storage := some (h.stringify s.cart) }

/-- Script function `openCartModal` (lines 68-71). Without a `cartModal`
element the first assignment throws and nothing is written. -/
def openCartModal (h : Host) (s : State) : State :=
  if h.cartModal then
    { s with dom := { s.dom with cartModalDisplay := Display.flex, bodyOverflow := "hidden" } }
  else s

/-- Script function `closeCartModal` (lines 73-76). Without a `cartModal`
element the first assignment throws and nothing is written. -/
def closeCartModal (h : Host) (s : State) : State :=
  if h.cartModal then
    { s with dom := { s.dom with cartModalDisplay := Display.none, bodyOverflow := "auto" } }
  else s

/-- The reducer of `updateCartCount`: `cart.reduce((sum, item) => sum + item.quantity, 0)`. -/
def totalItems (cart : List LineItem) : Int :=
  cart.foldl (fun sum item => sum + item.quantity) 0

/-- Script function `updateCartCount` (lines 112-123). -/
def updateCartCount (h : Host) (s : State) : State :=
  let total := totalItems s.cart
  if h.cartCount then
    { s with dom := { s.dom with
        cartCountText := toString total,
        cartCountDisplay := if total > 0 then Display.flex else Display.none } }
  else s

/-- Script function `updateCartItems` (lines 126-155). -/
def updateCartItems (h : Host) (s : State) : State :=
  if !h.cartItems then s
  else if s.cart.length = 0 then
    let d := { s.dom with cartItemsHTML := ItemsMarkup.emptyCart }
    { s with dom := if h.cartSummary then { d with cartSummaryDisplay := Display.none } else d }
  else
    let d := { s.dom with cartItemsHTML := ItemsMarkup.rows s.cart }
    { s with dom := if h.cartSummary then { d with cartSummaryDisplay := Display.block } else d }

/-- The reducer of `updateCartTotal` and `checkout`:
`cart.reduce((sum, item) => sum + (parseFloat(item.price) * item.quantity), 0)`. -/
def cartTotalValue (cart : List LineItem) : JSNum :=
  cart.foldl
    (fun sum item => JSNum.add sum (JSNum.mul (parseFloat item.price) (JSNum.ofInt item.quantity)))
    (JSNum.fin 0)

/-- Script function `updateCartTotal` (lines 172-177). -/
def updateCartTotal (h : Host) (s : State) : State :=
  let total := cartTotalValue s.cart
  if h.cartTotal then { s with dom := { s.dom with cartTotalText := toFixed total 2 } }
  else s

/-- Script function `updateCartUI` (lines 105-109). -/
def updateCartUI (h : Host) (s : State) : State :=
  updateCartTotal h (updateCartItems h (updateCartCount h s))

/-- Script function `showNotification` (lines 180-187); the timer that hides
the notification again after two seconds is not part of the cart state. -/
def showNotification (h : Host) (s : State) : State :=
  if h.cartNotification then { s with dom := { s.dom with notificationShown := true } }
  else s

/-- The object literal of lines 85-89: the spread product, then `quantity: 1`
and the generated `id`. -/
def newLineItem (product : Product) (id : JSNum) : LineItem :=
  { name := product.name, price := product.price, image := product.image,
    quantity := 1, id := id }

/-- Script function `addToCart` (lines 79-95). `now` and `rnd` are the values
`Date.now()` and `Math.random()` return if the new-item branch evaluates them. -/
def addToCart (h : Host) (now rnd : JSNum) (product : Product) (s : State) : State :=
  let s1 : State :=
    match s.cart.find? (fun item => item.name == product.name) with
    | some _ =>
      let bumped := mutateFirst (fun item => item.name == product.name)
        (fun item => { item with quantity := item.quantity + 1 }) s.cart
      { s with cart := bumped }
    | none =>
      { s with cart := s.cart ++ [newLineItem product (JSNum.add now rnd)] }
  showNotification h (updateCartUI h (saveCart h s1))

/-- Script function `removeFromCart` (lines 98-102). -/
def removeFromCart (h : Host) (productId : JSNum) (s : State) : State :=
  updateCartUI h (saveCart h
    { s with cart := s.cart.filter (fun item => !(JSNum.strictEq item.id productId)) })

/-- Script function `updateQuantity` (lines 158-169). -/
def updateQuantity (h : Host) (productId : JSNum) (change : Int) (s : State) : State :=
  match s.cart.find? (fun item => JSNum.strictEq item.id productId) with
  | none => s
  | some item =>
    let changed := mutateFirst (fun item => JSNum.strictEq item.id productId)
      (fun item => { item with quantity := item.quantity + change }) s.cart
    let s1 : State := { s with cart := changed }
    if item.quantity + change ≤ 0 then removeFromCart h productId s1
    else updateCartUI h (saveCart h s1)

/-- Script function `clearCart` (lines 190-194). -/
def clearCart (h : Host) (s : State) : State :=
  updateCartUI h (saveCart h { s with cart := [] })

/-- The fixed part of the `alert` text of line 201, after the total. -/
def checkoutNote : String :=
  "\n\nThis is a demo. In a real implementation, you would integrate with a payment processor like Stripe, PayPal, or similar."

/-- Script function `checkout` (lines 197-207). -/
def checkout (h : Host) (s : State) : State :=
  if s.cart.length = 0 then s
  else
    let total := cartTotalValue s.cart
    let message := "Checkout total: $" ++ toFixed total 2 ++ checkoutNote
    closeCartModal h (clearCart h { s with alerts := s.alerts ++ [message] })

/-! ## The total as the specification words it -/

/-- Exact value of a price text: the mathematical value of its decimal
literal, 0 when it has none. -/
def priceValue (text : String) : ℚ :=
  match strDecimalLiteral text with
  | StrNumeric.decimal mv => mv
  | _ => 0

/-- The exact sum over all line items of price × quantity. -/
def exactTotal (cart : List LineItem) : ℚ :=
  (cart.map (fun item => priceValue item.price * (item.quantity : ℚ))).sum

/-- An amount rounded to the nearest cent (half away from zero) and printed
with exactly two decimal places: whole units, a point, two digits. -/
def twoDecimals (x : ℚ) : String :=
  let cents := ⌊|x| * 100 + 1 / 2⌋.toNat
  (if x < 0 then "-" else "") ++
    (String.mk (Nat.toDigits 10 (cents / 100)) ++ "." ++
      String.mk [Nat.digitChar (cents / 10 % 10), Nat.digitChar (cents % 10)])

/-- The price text denotes a whole, non-negative number of cents, as an
unsigned decimal with at most two fractional digits does. -/
def WholeCents (text : String) : Prop :=
  ∃ c : ℕ, strDecimalLiteral text = StrNumeric.decimal ((c : ℚ) / 100)

/-! ## Sessions -/

/-- One call of a cart operation exported on `window`. -/
inductive Op where
  | addToCart (now rnd : JSNum) (product : Product) : Op
  | removeFromCart (productId : JSNum) : Op
  | updateQuantity (productId : JSNum) (change : Int) : Op
  | clearCart : Op

/-- Effect of one operation. -/
def step (h : Host) (s : State) : Op → State
  | Op.addToCart now rnd product => addToCart h now rnd product s
  | Op.removeFromCart productId => removeFromCart h productId s
  | Op.updateQuantity productId change => updateQuantity h productId change s
  | Op.clearCart => clearCart h s

/-- Effect of a finite sequence of operations, first to last. -/
def run (h : Host) (s : State) (ops : List Op) : State :=
  ops.foldl (step h) s

/-- A state whose cart is empty, as at script start (`let cart = []`). -/
def emptyCartState (storage : Option String) (dom : Dom) : State :=
  { cart := [], storage := storage, dom := dom, alerts := [] }

/-! ## Invariants and side conditions -/

/-- Every quantity in the cart is at least 1. -/
def QuantitiesPositive (cart : List LineItem) : Prop :=
  ∀ item ∈ cart, 1 ≤ item.quantity

/-- The names in the cart are pairwise distinct. -/
def NamesDistinct (cart : List LineItem) : Prop :=
  (cart.map (fun item => item.name)).Nodup

/-- The line items the bounded total theorem covers. -/
def Priced (item : LineItem) : Prop :=
  1 ≤ item.quantity ∧ item.quantity ≤ 10 ^ 9 ∧ WholeCents item.price

/-! ## Fixtures for concrete sessions -/

/-- A host page that supplies every element. The JSON built-ins are stand-ins:
the stored text lists names and quantities, and nothing parses. -/
def demoHost : Host :=
  { cartCount := true, cartItems := true, cartTotal := true, cartSummary := true,
    cartNotification := true, cartModal := true,
    stringify := fun cart =>
      String.intercalate "," (cart.map (fun item => item.name ++ "*" ++ toString item.quantity)),
    parse := fun _ => none }

/-- The document before the script has written anything. -/
def demoDom : Dom :=
  { cartCountText := "", cartCountDisplay := Display.initial,
    cartItemsHTML := ItemsMarkup.initial, cartSummaryDisplay := Display.initial,
    cartTotalText := "", notificationShown := false,
    cartModalDisplay := Display.initial, bodyOverflow := "" }

/-- The product of the scenario in the specification. -/
def mask : Product := { name := "Mask", price := "9.99", image := "" }

/-- A second product. -/
def gloves : Product := { name := "Gloves", price := "4.50", image := "gloves.png" }

/-- A clock reading, in milliseconds. -/
def demoNow : JSNum := JSNum.fin 1700000000000

/-- A value of the random source. -/
def demoRnd : JSNum := JSNum.fin (1 / 2)

/-- The id `demoNow + demoRnd`. -/
def demoId : JSNum := JSNum.fin (3400000000001 / 2)

/-- The mask line with a given quantity. -/
def maskLine (quantity : Int) : LineItem :=
  { name := "Mask", price := "9.99", image := "", quantity := quantity, id := demoId }

/-- A short session: the mask is added twice, then one is taken back. -/
def demoSession : List Op :=
  [Op.addToCart demoNow demoRnd mask, Op.addToCart demoNow demoRnd mask,
   Op.updateQuantity demoId (-1)]

/-- A line whose price text is not numeric. -/
def giftLine : LineItem :=
  { name := "Gift", price := "free", image := "", quantity := 1, id := JSNum.fin 3 }

/-- A line whose price, 2^53 + 1, is not a binary64 value. -/
def bondLine : LineItem :=
  { name := "Bond", price := "9007199254740993", image := "", quantity := 1, id := JSNum.fin 5 }

/-- A line whose price is 10^21. -/
def vaultLine : LineItem :=
  { name := "Vault", price := "1000000000000000000000", image := "", quantity := 1,
    id := JSNum.fin 6 }

/-! ## Rounding error of binary64 arithmetic -/

theorem log2Fuel_spec : ∀ (fuel n : Nat), 1 ≤ n → n ≤ fuel →
    2 ^ log2Fuel fuel n ≤ n ∧ n < 2 ^ (log2Fuel fuel n + 1) := by
  intro fuel
  induction fuel with
  | zero => intro n h1 h2; omega
  | succ fuel ih =>
    intro n h1 h2
    unfold log2Fuel
    by_cases hn : n < 2
    · simp only [hn, if_true]
      have : n = 1 := by omega
      subst this
      simp
    · simp only [hn, if_false]
      have hhalf : 1 ≤ n / 2 := by omega
      have hle : n / 2 ≤ fuel := by omega
      obtain ⟨hlo, hhi⟩ := ih (n / 2) hhalf hle
      constructor
      · rw [pow_succ]; omega
      · rw [pow_succ]; omega

theorem natLog2_spec (n : Nat) (h1 : 1 ≤ n) :
    2 ^ natLog2 n ≤ n ∧ n < 2 ^ (natLog2 n + 1) :=
  log2Fuel_spec n n h1 le_rfl

theorem ilog2_le (a : ℚ) (ha : 0 < a) : (2 : ℚ) ^ ilog2 a ≤ a := by
  unfold ilog2
  simp only
  split
  · assumption
  · have hnum : 0 < a.num := Rat.num_pos.mpr ha
    have hp : 1 ≤ a.num.natAbs := by omega
    have hq : 1 ≤ a.den := a.den_pos
    obtain ⟨hplo, -⟩ := natLog2_spec _ hp
    obtain ⟨-, hqhi⟩ := natLog2_spec _ hq
    have hnat : (a.num.natAbs : ℚ) = a.num := by
      rw [Nat.cast_natAbs, abs_of_pos hnum]
    have ha_eq : a = (a.num.natAbs : ℚ) / (a.den : ℚ) := by
      rw [hnat]; exact (Rat.num_div_den a).symm
    have h2 : ((natLog2 a.num.natAbs : ℤ) - (natLog2 a.den : ℤ) - 1) =
        (natLog2 a.num.natAbs : ℤ) - ((natLog2 a.den + 1 : ℕ) : ℤ) := by push_cast; ring
    rw [h2, zpow_sub₀ (by norm_num : (2 : ℚ) ≠ 0), zpow_natCast, zpow_natCast]
    conv_rhs => rw [ha_eq]
    have hden_pos : (0 : ℚ) < a.den := by exact_mod_cast hq
    have h1 : ((2 : ℚ) ^ natLog2 a.num.natAbs) ≤ (a.num.natAbs : ℚ) := by exact_mod_cast hplo
    have h3 : (a.den : ℚ) ≤ (2 : ℚ) ^ (natLog2 a.den + 1) := by exact_mod_cast hqhi.le
    exact div_le_div₀ (by positivity) h1 hden_pos h3

theorem roundHalfEven_error (x : ℚ) : |(roundHalfEven x : ℚ) - x| ≤ 1 / 2 := by
  have hfl : (⌊x⌋ : ℚ) ≤ x := Int.floor_le x
  have hfu : x < (⌊x⌋ : ℚ) + 1 := Int.lt_floor_add_one x
  unfold roundHalfEven
  simp only
  rw [abs_le]
  split
  · constructor <;> linarith
  · split
    · push_cast; constructor <;> linarith
    · split
      · constructor <;> linarith
      · push_cast; constructor <;> linarith

theorem roundHalfEven_nonneg (x : ℚ) (hx : 0 ≤ x) : 0 ≤ roundHalfEven x := by
  have hf : 0 ≤ ⌊x⌋ := Int.floor_nonneg.mpr hx
  unfold roundHalfEven
  simp only
  split
  · exact hf
  · split
    · omega
    · split
      · exact hf
      · omega

/-- Half a unit in the last place is at most a relative `2^-53` plus the
subnormal floor `2^-1075`. -/
theorem half_ulp_le (a : ℚ) (ha : 0 < a) :
    (2 : ℚ) ^ (max (ilog2 a) (-1022) - 52) / 2 ≤ a / 2 ^ (53 : ℕ) + 1 / 2 ^ (1075 : ℕ) := by
  have h2 : (2 : ℚ) ≠ 0 := by norm_num
  rcases le_total (ilog2 a) (-1022) with hle | hle
  · rw [max_eq_right hle]
    have : (2 : ℚ) ^ ((-1022 : ℤ) - 52) / 2 = 1 / 2 ^ (1075 : ℕ) := by
      rw [show ((-1022 : ℤ) - 52) = -((1074 : ℕ) : ℤ) by norm_num, zpow_neg, zpow_natCast]
      rw [show (1075 : ℕ) = 1074 + 1 by norm_num, pow_succ]
      field_simp
      ring
    rw [this]
    have : 0 ≤ a / 2 ^ (53 : ℕ) := by positivity
    linarith
  · rw [max_eq_left hle]
    have hlog := ilog2_le a ha
    have : (2 : ℚ) ^ (ilog2 a - 52) / 2 = (2 : ℚ) ^ ilog2 a / 2 ^ (53 : ℕ) := by
      rw [show (ilog2 a - 52) = ilog2 a - ((52 : ℕ) : ℤ) by norm_num, zpow_sub₀ h2, zpow_natCast]
      rw [show (53 : ℕ) = 52 + 1 by norm_num, pow_succ]
      field_simp
      left
      ring
    rw [this]
    have h53 : (0 : ℚ) < 2 ^ (53 : ℕ) := by positivity
    have : (2 : ℚ) ^ ilog2 a / 2 ^ (53 : ℕ) ≤ a / 2 ^ (53 : ℕ) :=
      div_le_div_of_nonneg_right hlog h53.le
    have : (0 : ℚ) ≤ 1 / 2 ^ (1075 : ℕ) := by positivity
    linarith

/-- Rounding error of `roundDouble` below the overflow range. -/
theorem roundDouble_error (q : ℚ) (hq : |q| ≤ 2 ^ (1023 : ℕ)) :
    ∃ r : ℚ, roundDouble q = JSNum.fin r ∧
      |r - q| ≤ |q| / 2 ^ (53 : ℕ) + 1 / 2 ^ (1075 : ℕ) ∧ (0 ≤ q → 0 ≤ r) := by
  by_cases h0 : q = 0
  · refine ⟨0, by simp [roundDouble, h0], ?_, fun _ => le_rfl⟩
    subst h0
    simp
  · obtain ⟨a, ha_def⟩ : ∃ a : ℚ, a = |q| := ⟨_, rfl⟩
    have ha : 0 < a := by rw [ha_def]; exact abs_pos.mpr h0
    have hqa : a ≤ 2 ^ (1023 : ℕ) := by rw [ha_def]; exact hq
    obtain ⟨ulp, hulp⟩ : ∃ ulp : ℚ, ulp = (2 : ℚ) ^ (max (ilog2 a) (-1022) - 52) := ⟨_, rfl⟩
    have hulp_pos : 0 < ulp := by rw [hulp]; positivity
    obtain ⟨m, hm⟩ : ∃ m : ℤ, m = roundHalfEven (a / ulp) := ⟨_, rfl⟩
    have herr : |(m : ℚ) * ulp - a| ≤ ulp / 2 := by
      have h1 := roundHalfEven_error (a / ulp)
      rw [← hm] at h1
      have h2 : (m : ℚ) * ulp - a = ((m : ℚ) - a / ulp) * ulp := by
        field_simp
      rw [h2, abs_mul, abs_of_pos hulp_pos]
      calc |(m : ℚ) - a / ulp| * ulp ≤ 1 / 2 * ulp :=
            mul_le_mul_of_nonneg_right h1 hulp_pos.le
        _ = ulp / 2 := by ring
    have hhalf : ulp / 2 ≤ a / 2 ^ (53 : ℕ) + 1 / 2 ^ (1075 : ℕ) := by
      rw [hulp]; exact half_ulp_le a ha
    have hm_nonneg : (0 : ℚ) ≤ (m : ℚ) := by
      have : 0 ≤ m := by rw [hm]; exact roundHalfEven_nonneg _ (div_nonneg ha.le hulp_pos.le)
      exact_mod_cast this
    have hr_nonneg : 0 ≤ (m : ℚ) * ulp := mul_nonneg hm_nonneg hulp_pos.le
    have hbound : (m : ℚ) * ulp < 2 ^ (1024 : ℕ) := by
      have h1 := (abs_le.mp herr).2
      have h3 : a / 2 ^ (53 : ℕ) ≤ 2 ^ (1023 : ℕ) / 2 ^ (53 : ℕ) :=
        div_le_div_of_nonneg_right hqa (by positivity)
      have h4 : (2 : ℚ) ^ (1023 : ℕ) / 2 ^ (53 : ℕ) + 1 / 2 ^ (1075 : ℕ) < 2 ^ (1023 : ℕ) := by
        norm_num
      have h5 : (2 : ℚ) ^ (1024 : ℕ) = 2 * 2 ^ (1023 : ℕ) := by norm_num
      linarith
    have hval : roundDouble q = JSNum.fin (if q < 0 then -((m : ℚ) * ulp) else (m : ℚ) * ulp) := by
      unfold roundDouble
      simp only [h0, if_false, ← ha_def, ← hulp, ← hm, not_le.mpr hbound]
    by_cases hneg : q < 0
    · refine ⟨-((m : ℚ) * ulp), by rw [hval, if_pos hneg], ?_, fun h => absurd h (not_le.mpr hneg)⟩
      have hq_eq : q = -a := by rw [ha_def, abs_of_neg hneg]; ring
      have : -((m : ℚ) * ulp) - q = -((m : ℚ) * ulp - a) := by rw [hq_eq]; ring
      rw [this, abs_neg, ← ha_def]
      linarith
    · refine ⟨(m : ℚ) * ulp, by rw [hval, if_neg hneg], ?_, fun _ => hr_nonneg⟩
      have hq_eq : a = q := by rw [ha_def]; exact abs_of_nonneg (not_lt.mp hneg)
      rw [← ha_def, ← hq_eq]
      linarith

/-- Error of a product of two approximated non-negative factors. -/
theorem mul_approx (u η P q d qd M Q : ℚ) (hu : 0 ≤ u) (hη : 0 ≤ η) (hP : 0 ≤ P) (hq : 0 ≤ q)
    (hd : |d - P| ≤ u * P + η) (hqd : |qd - q| ≤ u * q + η)
    (hPM : P ≤ M) (hqQ : q ≤ Q) (hPq : P * q ≤ M) :
    |d * qd - P * q| ≤ 2 * u * M + u * u * M + η * (Q + M + u * M + u * Q + η) := by
  have h1 : d * qd - P * q = (d - P) * q + P * (qd - q) + (d - P) * (qd - q) := by ring
  have hb1 : 0 ≤ u * P + η := by positivity
  have hb2 : 0 ≤ u * q + η := by positivity
  have t1 : |(d - P) * q| ≤ (u * P + η) * q := by
    rw [abs_mul, abs_of_nonneg hq]
    exact mul_le_mul_of_nonneg_right hd hq
  have t2 : |P * (qd - q)| ≤ P * (u * q + η) := by
    rw [abs_mul, abs_of_nonneg hP]
    exact mul_le_mul_of_nonneg_left hqd hP
  have t3 : |(d - P) * (qd - q)| ≤ (u * P + η) * (u * q + η) := by
    rw [abs_mul]
    exact mul_le_mul hd hqd (abs_nonneg _) hb1
  have tri : |d * qd - P * q| ≤ |(d - P) * q| + |P * (qd - q)| + |(d - P) * (qd - q)| := by
    rw [h1]
    exact (abs_add _ _).trans (add_le_add_right (abs_add _ _) _)
  have hM : 0 ≤ M := le_trans hP hPM
  have a1 : u * (P * q) ≤ u * M := mul_le_mul_of_nonneg_left hPq hu
  have a2 : η * q ≤ η * Q := mul_le_mul_of_nonneg_left hqQ hη
  have a3 : η * P ≤ η * M := mul_le_mul_of_nonneg_left hPM hη
  have a4 : u * u * (P * q) ≤ u * u * M := mul_le_mul_of_nonneg_left hPq (mul_nonneg hu hu)
  have a5 : u * η * P ≤ u * η * M := mul_le_mul_of_nonneg_left hPM (mul_nonneg hu hη)
  have a6 : u * η * q ≤ u * η * Q := mul_le_mul_of_nonneg_left hqQ (mul_nonneg hu hη)
  nlinarith [t1, t2, t3, tri, a1, a2, a3, a4, a5, a6]

/-- One term of the total: the Number product of a whole-cents price and a
quantity is within `4/10^7` of the exact product. -/
theorem item_error (P : ℚ) (q : ℤ) (hP : 0 ≤ P) (hq1 : 1 ≤ q) (hqQ : q ≤ 10 ^ 9)
    (hPq : P * (q : ℚ) ≤ 10 ^ 9) :
    ∃ t : ℚ, JSNum.mul (roundDouble P) (JSNum.ofInt q) = JSNum.fin t ∧ 0 ≤ t ∧
      |t - P * (q : ℚ)| ≤ 4 / 10 ^ 7 := by
  have hq0 : (0 : ℚ) ≤ (q : ℚ) := by
    have : (0 : ℤ) ≤ q := by omega
    exact_mod_cast this
  have hq1' : (1 : ℚ) ≤ (q : ℚ) := by exact_mod_cast hq1
  have hqQ' : (q : ℚ) ≤ 10 ^ 9 := by exact_mod_cast hqQ
  have hPM : P ≤ 10 ^ 9 := by nlinarith
  obtain ⟨d, hd, hderr, hdnn⟩ := roundDouble_error P (by rw [abs_of_nonneg hP]; linarith [show (10:ℚ)^9 ≤ 2^(1023:ℕ) by norm_num])
  obtain ⟨qd, hqd, hqderr, hqdnn⟩ := roundDouble_error (q : ℚ)
    (by rw [abs_of_nonneg hq0]; linarith [show (10:ℚ)^9 ≤ 2^(1023:ℕ) by norm_num])
  rw [abs_of_nonneg hP] at hderr
  rw [abs_of_nonneg hq0] at hqderr
  have hd0 := hdnn hP
  have hqd0 := hqdnn hq0
  have hprod := mul_approx (1 / 2 ^ (53 : ℕ)) (1 / 2 ^ (1075 : ℕ)) P q d qd (10 ^ 9) (10 ^ 9)
    (by positivity) (by positivity) hP hq0 (by linarith) (by linarith) hPM hqQ' hPq
  have hκ : 2 * (1 / 2 ^ (53 : ℕ)) * (10 : ℚ) ^ 9 + 1 / 2 ^ (53 : ℕ) * (1 / 2 ^ (53 : ℕ)) * 10 ^ 9 +
      1 / 2 ^ (1075 : ℕ) * (10 ^ 9 + 10 ^ 9 + 1 / 2 ^ (53 : ℕ) * 10 ^ 9 + 1 / 2 ^ (53 : ℕ) * 10 ^ 9 +
        1 / 2 ^ (1075 : ℕ)) ≤ 23 / 10 ^ 8 := by norm_num
  have hx : |d * qd - P * (q : ℚ)| ≤ 23 / 10 ^ 8 := hprod.trans hκ
  have hx0 : 0 ≤ d * qd := mul_nonneg hd0 hqd0
  have hxM : d * qd ≤ 10 ^ 9 + 1 := by
    have := (abs_le.mp hx).2
    linarith
  obtain ⟨t, ht, hterr, htnn⟩ := roundDouble_error (d * qd)
    (by rw [abs_of_nonneg hx0]; linarith [show (10:ℚ)^9 + 1 ≤ 2^(1023:ℕ) by norm_num])
  rw [abs_of_nonneg hx0] at hterr
  refine ⟨t, ?_, htnn hx0, ?_⟩
  · rw [hd, JSNum.ofInt, hqd]
    exact ht
  · have h1 : d * qd / 2 ^ (53 : ℕ) ≤ (10 ^ 9 + 1) / 2 ^ (53 : ℕ) :=
      div_le_div_of_nonneg_right hxM (by positivity)
    have h2 : ((10 : ℚ) ^ 9 + 1) / 2 ^ (53 : ℕ) + 1 / 2 ^ (1075 : ℕ) ≤ 12 / 10 ^ 8 := by norm_num
    have h3 : |t - P * (q : ℚ)| ≤ |t - d * qd| + |d * qd - P * (q : ℚ)| := by
      have := abs_add (t - d * qd) (d * qd - P * (q : ℚ))
      simpa using this
    have h4 : (23 : ℚ) / 10 ^ 8 + 12 / 10 ^ 8 ≤ 4 / 10 ^ 7 := by norm_num
    linarith

theorem priceValue_of_wholeCents (text : String) (c : ℕ)
    (h : strDecimalLiteral text = StrNumeric.decimal ((c : ℚ) / 100)) :
    priceValue text = (c : ℚ) / 100 ∧ parseFloat text = roundDouble ((c : ℚ) / 100) := by
  simp [priceValue, parseFloat, h]

theorem exactTotal_cons (a : LineItem) (rest : List LineItem) :
    exactTotal (a :: rest) = priceValue a.price * (a.quantity : ℚ) + exactTotal rest := by
  simp [exactTotal]

/-- The exact total of priced items is a whole, non-negative number of cents. -/
theorem exactTotal_cents (l : List LineItem) (hl : ∀ item ∈ l, Priced item) :
    ∃ C : ℕ, exactTotal l = (C : ℚ) / 100 := by
  induction l with
  | nil => exact ⟨0, by simp [exactTotal]⟩
  | cons a rest ih =>
    obtain ⟨C, hC⟩ := ih (fun item hmem => hl item (by simp [hmem]))
    obtain ⟨hq1, -, c, hc⟩ := hl a (by simp)
    refine ⟨c * a.quantity.toNat + C, ?_⟩
    rw [exactTotal_cons, hC, (priceValue_of_wholeCents _ c hc).1]
    have hqn : ((a.quantity.toNat : ℕ) : ℚ) = (a.quantity : ℚ) := by
      have : ((a.quantity.toNat : ℕ) : ℤ) = a.quantity := Int.toNat_of_nonneg (by omega)
      exact_mod_cast this
    push_cast
    rw [hqn]
    ring

theorem exactTotal_nonneg (l : List LineItem) (hl : ∀ item ∈ l, Priced item) :
    0 ≤ exactTotal l := by
  obtain ⟨C, hC⟩ := exactTotal_cents l hl
  rw [hC]
  positivity

/-- Accumulated error of the running Number sum: at most `10^-6` per line. -/
theorem foldl_total_error : ∀ (l : List LineItem) (s S : ℚ) (k : ℕ),
    (∀ item ∈ l, Priced item) → 0 ≤ s → 0 ≤ S → |s - S| ≤ (k : ℚ) / 10 ^ 6 →
    S + exactTotal l ≤ 10 ^ 9 → k + l.length ≤ 1000 →
    ∃ r : ℚ, l.foldl
        (fun sum item => JSNum.add sum (JSNum.mul (parseFloat item.price) (JSNum.ofInt item.quantity)))
        (JSNum.fin s) = JSNum.fin r ∧ 0 ≤ r ∧
      |r - (S + exactTotal l)| ≤ ((k + l.length : ℕ) : ℚ) / 10 ^ 6 := by
  intro l
  induction l with
  | nil =>
    intro s S k _ hs _ herr _ _
    exact ⟨s, rfl, hs, by simpa [exactTotal] using herr⟩
  | cons a rest ih =>
    intro s S k hl hs hS herr hM hk
    have hrest : ∀ item ∈ rest, Priced item := fun item hmem => hl item (by simp [hmem])
    obtain ⟨hq1, hqQ, c, hc⟩ := hl a (by simp)
    obtain ⟨hpv, hpf⟩ := priceValue_of_wholeCents _ c hc
    have hP : (0 : ℚ) ≤ (c : ℚ) / 100 := by positivity
    have hrest0 := exactTotal_nonneg rest hrest
    rw [exactTotal_cons, hpv] at hM
    have hq0 : (0 : ℚ) ≤ (a.quantity : ℚ) := by
      have : (0 : ℤ) ≤ a.quantity := by omega
      exact_mod_cast this
    have hPq0 : 0 ≤ (c : ℚ) / 100 * (a.quantity : ℚ) := mul_nonneg hP hq0
    obtain ⟨t, ht, ht0, hterr⟩ := item_error ((c : ℚ) / 100) a.quantity hP hq1 hqQ (by linarith)
    have hk' : (k : ℚ) ≤ 1000 := by
      have : k ≤ 1000 := by omega
      exact_mod_cast this
    have hsum0 : 0 ≤ s + t := add_nonneg hs ht0
    have hsumerr : |s + t - (S + (c : ℚ) / 100 * (a.quantity : ℚ))| ≤ (k : ℚ) / 10 ^ 6 + 4 / 10 ^ 7 := by
      have h1 : s + t - (S + (c : ℚ) / 100 * (a.quantity : ℚ)) =
          (s - S) + (t - (c : ℚ) / 100 * (a.quantity : ℚ)) := by ring
      rw [h1]
      exact (abs_add _ _).trans (add_le_add herr hterr)
    have hsumM : s + t ≤ 10 ^ 9 + 1 := by
      have := (abs_le.mp hsumerr).2
      have h2 : (k : ℚ) / 10 ^ 6 ≤ 1000 / 10 ^ 6 := div_le_div_of_nonneg_right hk' (by positivity)
      have h3 : (1000 : ℚ) / 10 ^ 6 + 4 / 10 ^ 7 ≤ 1 := by norm_num
      linarith
    obtain ⟨r1, hr1, hr1err, hr1nn⟩ := roundDouble_error (s + t)
      (by rw [abs_of_nonneg hsum0]; linarith [show (10:ℚ)^9 + 1 ≤ 2^(1023:ℕ) by norm_num])
    rw [abs_of_nonneg hsum0] at hr1err
    have hstep : |r1 - (S + (c : ℚ) / 100 * (a.quantity : ℚ))| ≤ ((k + 1 : ℕ) : ℚ) / 10 ^ 6 := by
      have h1 : (s + t) / 2 ^ (53 : ℕ) ≤ (10 ^ 9 + 1) / 2 ^ (53 : ℕ) :=
        div_le_div_of_nonneg_right hsumM (by positivity)
      have h2 : ((10 : ℚ) ^ 9 + 1) / 2 ^ (53 : ℕ) + 1 / 2 ^ (1075 : ℕ) ≤ 2 / 10 ^ 7 := by norm_num
      have h3 : |r1 - (S + (c : ℚ) / 100 * (a.quantity : ℚ))| ≤
          |r1 - (s + t)| + |s + t - (S + (c : ℚ) / 100 * (a.quantity : ℚ))| := by
        have := abs_add (r1 - (s + t)) (s + t - (S + (c : ℚ) / 100 * (a.quantity : ℚ)))
        simpa using this
      have h4 : ((k + 1 : ℕ) : ℚ) / 10 ^ 6 = (k : ℚ) / 10 ^ 6 + 1 / 10 ^ 6 := by
        push_cast; ring
      rw [h4]
      have h5 : (2 : ℚ) / 10 ^ 7 + 4 / 10 ^ 7 ≤ 1 / 10 ^ 6 := by norm_num
      linarith
    obtain ⟨r, hr, hr0, hrerr⟩ := ih r1 (S + (c : ℚ) / 100 * (a.quantity : ℚ)) (k + 1) hrest
      (hr1nn hsum0) (add_nonneg hS hPq0) hstep (by linarith) (by simp only [List.length_cons] at hk; omega)
    refine ⟨r, ?_, hr0, ?_⟩
    · simp only [List.foldl, hpf, ht, JSNum.add, hr1]
      exact hr
    · rw [exactTotal_cons, hpv]
      have h6 : k + (a :: rest).length = k + 1 + rest.length := by simp; omega
      rw [h6, ← add_assoc]
      exact hrerr

theorem toDigitsCore_acc : ∀ (fuel n : Nat) (ds : List Char),
    Nat.toDigitsCore 10 fuel n ds = Nat.toDigitsCore 10 fuel n [] ++ ds := by
  intro fuel
  induction fuel with
  | zero => intro n ds; simp [Nat.toDigitsCore]
  | succ fuel ih =>
    intro n ds
    simp only [Nat.toDigitsCore]
    split
    · simp
    · rw [ih (n / 10) (Nat.digitChar (n % 10) :: ds), ih (n / 10) [Nat.digitChar (n % 10)]]
      simp

theorem toDigitsCore_fuel : ∀ (f1 f2 n : Nat), n < f1 → n < f2 →
    Nat.toDigitsCore 10 f1 n [] = Nat.toDigitsCore 10 f2 n [] := by
  intro f1
  induction f1 with
  | zero => intro f2 n h1; omega
  | succ f1 ih =>
    intro f2 n h1 h2
    cases f2 with
    | zero => omega
    | succ f2 =>
      simp only [Nat.toDigitsCore]
      split
      · rfl
      · rename_i hne
        rw [toDigitsCore_acc f1, toDigitsCore_acc f2, ih f2 (n / 10) (by omega) (by omega)]

theorem toDigits_lt_ten (n : Nat) (h : n < 10) : Nat.toDigits 10 n = [Nat.digitChar n] := by
  have h0 : n / 10 = 0 := by omega
  have h1 : n % 10 = n := by omega
  simp [Nat.toDigits, Nat.toDigitsCore, h0, h1]

theorem toDigits_ge_ten (n : Nat) (h : 10 ≤ n) :
    Nat.toDigits 10 n = Nat.toDigits 10 (n / 10) ++ [Nat.digitChar (n % 10)] := by
  have h0 : n / 10 ≠ 0 := by omega
  unfold Nat.toDigits
  rw [Nat.toDigitsCore]
  simp only [h0, if_false]
  rw [toDigitsCore_acc, toDigitsCore_fuel n (n / 10 + 1) (n / 10) (by omega) (by omega)]

theorem toDigits_length_pos (n : Nat) : 1 ≤ (Nat.toDigits 10 n).length := by
  by_cases h : n < 10
  · rw [toDigits_lt_ten n h]; simp
  · rw [toDigits_ge_ten n (by omega)]; simp

theorem insertPoint_append_two (pre : List Char) (a b : Char) (hpre : 1 ≤ pre.length) :
    insertPoint (pre ++ [a, b]) 2 = String.mk pre ++ "." ++ String.mk [a, b] := by
  unfold insertPoint
  have h1 : 2 + 1 - (pre ++ [a, b]).length = 0 := by
    simp only [List.length_append, List.length_cons, List.length_nil]; omega
  have h2 : (pre ++ [a, b]).length - 2 = pre.length := by simp
  simp only [h1, List.replicate_zero, List.nil_append, h2, List.take_left, List.drop_left]

/-- With two fraction digits `toFixed` prints the hundreds part, a point and
the last two digits. -/
theorem insertPoint_two (C : ℕ) :
    insertPoint (Nat.toDigits 10 C) 2 =
      String.mk (Nat.toDigits 10 (C / 100)) ++ "." ++
        String.mk [Nat.digitChar (C / 10 % 10), Nat.digitChar (C % 10)] := by
  by_cases h10 : C < 10
  · have e1 : C / 100 = 0 := by omega
    have e2 : C / 10 % 10 = 0 := by omega
    have e3 : C % 10 = C := by omega
    rw [toDigits_lt_ten C h10, e1, e2, e3]
    rfl
  · by_cases h100 : C < 100
    · have e1 : C / 100 = 0 := by omega
      have e2 : C / 10 % 10 = C / 10 := by omega
      rw [toDigits_ge_ten C (by omega), toDigits_lt_ten (C / 10) (by omega), e1, e2]
      rfl
    · have e1 : C / 10 / 10 = C / 100 := by omega
      rw [toDigits_ge_ten C (by omega), toDigits_ge_ten (C / 10) (by omega), e1,
        List.append_assoc]
      exact insertPoint_append_two _ _ _ (toDigits_length_pos (C / 100))

/-! ## Basic facts about the operations -/

@[simp] theorem saveCart_cart (h : Host) (s : State) : (saveCart h s).cart = s.cart := rfl

@[simp] theorem updateCartCount_cart (h : Host) (s : State) :
    (updateCartCount h s).cart = s.cart := by
  unfold updateCartCount; split <;> rfl

@[simp] theorem updateCartItems_cart (h : Host) (s : State) :
    (updateCartItems h s).cart = s.cart := by
  unfold updateCartItems; split
  · rfl
  · split <;> rfl

@[simp] theorem updateCartTotal_cart (h : Host) (s : State) :
    (updateCartTotal h s).cart = s.cart := by
  unfold updateCartTotal; split <;> rfl

@[simp] theorem updateCartUI_cart (h : Host) (s : State) :
    (updateCartUI h s).cart = s.cart := by
  simp [updateCartUI]

@[simp] theorem showNotification_cart (h : Host) (s : State) :
    (showNotification h s).cart = s.cart := by
  unfold showNotification; split <;> rfl

@[simp] theorem saveCart_storage (h : Host) (s : State) :
    (saveCart h s).storage = some (h.stringify s.cart) := rfl

@[simp] theorem updateCartCount_storage (h : Host) (s : State) :
    (updateCartCount h s).storage = s.storage := by
  unfold updateCartCount; split <;> rfl

@[simp] theorem updateCartItems_storage (h : Host) (s : State) :
    (updateCartItems h s).storage = s.storage := by
  unfold updateCartItems; split
  · rfl
  · split <;> rfl

@[simp] theorem updateCartTotal_storage (h : Host) (s : State) :
    (updateCartTotal h s).storage = s.storage := by
  unfold updateCartTotal; split <;> rfl

@[simp] theorem updateCartUI_storage (h : Host) (s : State) :
    (updateCartUI h s).storage = s.storage := by
  simp [updateCartUI]

@[simp] theorem updateCartCount_alerts (h : Host) (s : State) :
    (updateCartCount h s).alerts = s.alerts := by
  unfold updateCartCount; split <;> rfl

@[simp] theorem updateCartItems_alerts (h : Host) (s : State) :
    (updateCartItems h s).alerts = s.alerts := by
  unfold updateCartItems; split
  · rfl
  · split <;> rfl

@[simp] theorem updateCartTotal_alerts (h : Host) (s : State) :
    (updateCartTotal h s).alerts = s.alerts := by
  unfold updateCartTotal; split <;> rfl

@[simp] theorem updateCartUI_alerts (h : Host) (s : State) :
    (updateCartUI h s).alerts = s.alerts := by
  simp [updateCartUI]

@[simp] theorem removeFromCart_cart (h : Host) (productId : JSNum) (s : State) :
    (removeFromCart h productId s).cart =
      s.cart.filter (fun item => !(JSNum.strictEq item.id productId)) := by
  simp [removeFromCart]

@[simp] theorem clearCart_cart (h : Host) (s : State) : (clearCart h s).cart = [] := by
  simp [clearCart]

/-- Where `find` succeeds, `mutateFirst` rewrites exactly the element found. -/
theorem mutateFirst_of_find_some (p : LineItem → Bool) (f : LineItem → LineItem) :
    ∀ (l : List LineItem) (item : LineItem), l.find? p = some item →
      ∃ l1 l2, l = l1 ++ item :: l2 ∧ (∀ x ∈ l1, p x = false) ∧ p item = true ∧
        mutateFirst p f l = l1 ++ f item :: l2 := by
  intro l
  induction l with
  | nil => intro item hfind; simp at hfind
  | cons a rest ih =>
    intro item hfind
    by_cases hpa : p a = true
    · have hitem : a = item := by simpa [List.find?, hpa] using hfind
      subst hitem
      exact ⟨[], rest, rfl, by simp, hpa, by simp [mutateFirst, hpa]⟩
    · have hpa2 : p a = false := by simpa using hpa
      have hrest : rest.find? p = some item := by simpa [List.find?, hpa2] using hfind
      obtain ⟨l1, l2, hl, hl1, hp, hm⟩ := ih item hrest
      refine ⟨a :: l1, l2, by simp [hl], ?_, hp, by simp [mutateFirst, hpa2, hm]⟩
      intro x hx
      rcases List.mem_cons.mp hx with rfl | hx
      · exact hpa2
      · exact hl1 x hx

/-- Where `find` fails, no element satisfies the test. -/
theorem forall_false_of_find_none (p : LineItem → Bool) (l : List LineItem)
    (hfind : l.find? p = none) : ∀ x ∈ l, p x = false := by
  intro x hx
  have := List.find?_eq_none.mp hfind x hx
  simpa using this

/-- The cart after `addToCart`, by cases on the outcome of `find`. -/
theorem addToCart_cart (h : Host) (now rnd : JSNum) (product : Product) (s : State) :
    (addToCart h now rnd product s).cart =
      match s.cart.find? (fun item => item.name == product.name) with
      | some _ => mutateFirst (fun item => item.name == product.name)
          (fun item => { item with quantity := item.quantity + 1 }) s.cart
      | none => s.cart ++ [newLineItem product (JSNum.add now rnd)] := by
  unfold addToCart
  cases s.cart.find? (fun item => item.name == product.name) <;> simp

/-- The cart after `updateQuantity`, by cases on the outcome of `find`. -/
theorem updateQuantity_cart (h : Host) (productId : JSNum) (change : Int) (s : State) :
    (updateQuantity h productId change s).cart =
      match s.cart.find? (fun item => JSNum.strictEq item.id productId) with
      | none => s.cart
      | some item =>
        if item.quantity + change ≤ 0 then
          (mutateFirst (fun item => JSNum.strictEq item.id productId)
            (fun item => { item with quantity := item.quantity + change }) s.cart).filter
            (fun item => !(JSNum.strictEq item.id productId))
        else
          mutateFirst (fun item => JSNum.strictEq item.id productId)
            (fun item => { item with quantity := item.quantity + change }) s.cart := by
  unfold updateQuantity
  cases s.cart.find? (fun item => JSNum.strictEq item.id productId) with
  | none => rfl
  | some item =>
    simp only
    split <;> simp

/-! ## Invariants of reachable carts: proofs -/

theorem step_quantitiesPositive (h : Host) (s : State) (op : Op)
    (hs : QuantitiesPositive s.cart) : QuantitiesPositive (step h s op).cart := by
  cases op with
  | addToCart now rnd product =>
    simp only [step, addToCart_cart]
    cases hfind : s.cart.find? (fun item => item.name == product.name) with
    | none =>
      intro item hmem
      rcases List.mem_append.mp hmem with hmem | hmem
      · exact hs item hmem
      · have : item = newLineItem product (JSNum.add now rnd) := by simpa using hmem
        subst this
        simp [newLineItem]
    | some found =>
      obtain ⟨l1, l2, hl, -, -, hm⟩ := mutateFirst_of_find_some _
        (fun item => { item with quantity := item.quantity + 1 }) s.cart found hfind
      simp only [hm]
      intro item hmem
      have hfound : 1 ≤ found.quantity := hs found (by rw [hl]; simp)
      rcases List.mem_append.mp hmem with hmem | hmem
      · exact hs item (by rw [hl]; simp [hmem])
      · rcases List.mem_cons.mp hmem with rfl | hmem
        · show 1 ≤ found.quantity + 1
          omega
        · exact hs item (by rw [hl]; simp [hmem])
  | removeFromCart productId =>
    simp only [step, removeFromCart_cart]
    intro item hmem
    exact hs item (List.mem_filter.mp hmem).1
  | updateQuantity productId change =>
    simp only [step, updateQuantity_cart]
    cases hfind : s.cart.find? (fun item => JSNum.strictEq item.id productId) with
    | none => exact hs
    | some found =>
      obtain ⟨l1, l2, hl, -, hp, hm⟩ := mutateFirst_of_find_some _
        (fun item => { item with quantity := item.quantity + change }) s.cart found hfind
      simp only [hm]
      split
      · intro item hmem
        obtain ⟨hmem, hkeep⟩ := List.mem_filter.mp hmem
        rcases List.mem_append.mp hmem with hmem | hmem
        · exact hs item (by rw [hl]; simp [hmem])
        · rcases List.mem_cons.mp hmem with rfl | hmem
          · simp [hp] at hkeep
          · exact hs item (by rw [hl]; simp [hmem])
      · rename_i hpos
        intro item hmem
        rcases List.mem_append.mp hmem with hmem | hmem
        · exact hs item (by rw [hl]; simp [hmem])
        · rcases List.mem_cons.mp hmem with rfl | hmem
          · show 1 ≤ found.quantity + change
            omega
          · exact hs item (by rw [hl]; simp [hmem])
  | clearCart =>
    simp only [step, clearCart_cart]
    intro item hmem
    simp at hmem

theorem run_quantitiesPositive (h : Host) (ops : List Op) :
    ∀ s : State, QuantitiesPositive s.cart → QuantitiesPositive (run h s ops).cart := by
  induction ops with
  | nil => intro s hs; exact hs
  | cons op rest ih =>
    intro s hs
    exact ih (step h s op) (step_quantitiesPositive h s op hs)

theorem step_namesDistinct (h : Host) (s : State) (op : Op)
    (hs : NamesDistinct s.cart) : NamesDistinct (step h s op).cart := by
  unfold NamesDistinct at hs ⊢
  cases op with
  | addToCart now rnd product =>
    simp only [step, addToCart_cart]
    cases hfind : s.cart.find? (fun item => item.name == product.name) with
    | none =>
      have hno := forall_false_of_find_none _ _ hfind
      simp only [List.map_append, List.map_cons, List.map_nil]
      refine List.Nodup.append hs (List.nodup_singleton _) ?_
      intro nm h1 h2
      have hnm : nm = product.name := by simpa [newLineItem] using h2
      obtain ⟨item, hitem, hname⟩ := List.mem_map.mp h1
      have := hno item hitem
      simp at this
      exact this (hname.trans hnm)
    | some found =>
      obtain ⟨l1, l2, hl, -, -, hm⟩ := mutateFirst_of_find_some _
        (fun item => { item with quantity := item.quantity + 1 }) s.cart found hfind
      simp only [hm]
      rw [hl] at hs
      simpa using hs
  | removeFromCart productId =>
    simp only [step, removeFromCart_cart]
    exact hs.sublist ((List.filter_sublist _).map _)
  | updateQuantity productId change =>
    simp only [step, updateQuantity_cart]
    cases hfind : s.cart.find? (fun item => JSNum.strictEq item.id productId) with
    | none => exact hs
    | some found =>
      obtain ⟨l1, l2, hl, -, -, hm⟩ := mutateFirst_of_find_some _
        (fun item => { item with quantity := item.quantity + change }) s.cart found hfind
      simp only [hm]
      have hsame : (l1 ++ { found with quantity := found.quantity + change } :: l2).map
          (fun item => item.name) = s.cart.map (fun item => item.name) := by
        rw [hl]; simp
      split
      · refine List.Nodup.sublist ((List.filter_sublist _).map _) ?_
        rw [hsame]; exact hs
      · rw [hsame]; exact hs
  | clearCart =>
    simp [step]

theorem run_namesDistinct (h : Host) (ops : List Op) :
    ∀ s : State, NamesDistinct s.cart → NamesDistinct (run h s ops).cart := by
  induction ops with
  | nil => intro s hs; exact hs
  | cons op rest ih =>
    intro s hs
    exact ih (step h s op) (step_namesDistinct h s op hs)

/-- The badge count is the sum of the quantities, whatever the accumulator. -/
theorem foldl_quantity_sum (cart : List LineItem) :
    ∀ acc : Int, cart.foldl (fun sum item => sum + item.quantity) acc =
      acc + (cart.map (fun item => item.quantity)).sum := by
  induction cart with
  | nil => intro acc; simp
  | cons a rest ih => intro acc; simp [ih, add_assoc]

theorem totalItems_eq_sum (cart : List LineItem) :
    totalItems cart = (cart.map (fun item => item.quantity)).sum := by
  simp [totalItems, foldl_quantity_sum]

theorem length_le_totalItems (cart : List LineItem) (hq : QuantitiesPositive cart) :
    (cart.length : Int) ≤ totalItems cart := by
  rw [totalItems_eq_sum]
  induction cart with
  | nil => simp
  | cons a rest ih =>
    have ha : 1 ≤ a.quantity := hq a (by simp)
    have hrest := ih (fun item hmem => hq item (by simp [hmem]))
    simp only [List.length_cons, List.map_cons, List.sum_cons]
    push_cast
    omega

/-- Removing by id after rewriting the found element equals removing by id. -/
theorem filter_mutateFirst_id (productId : JSNum) (f : LineItem → LineItem)
    (hid : ∀ item, (f item).id = item.id) (cart : List LineItem) (found : LineItem)
    (hfind : cart.find? (fun item => JSNum.strictEq item.id productId) = some found) :
    (mutateFirst (fun item => JSNum.strictEq item.id productId) f cart).filter
        (fun item => !(JSNum.strictEq item.id productId)) =
      cart.filter (fun item => !(JSNum.strictEq item.id productId)) := by
  obtain ⟨l1, l2, hl, -, hp, hm⟩ := mutateFirst_of_find_some _ f cart found hfind
  have hp2 : JSNum.strictEq found.id productId = true := hp
  rw [hm, hl]
  simp [List.filter_cons, hid, hp2]

/-- What `updateCartUI` writes to the badge, the list and the summary when the
page supplies them. -/
theorem updateCartUI_dom (h : Host) (s : State) (hc : h.cartCount = true)
    (hi : h.cartItems = true) (hsum : h.cartSummary = true) :
    (updateCartUI h s).dom.cartCountText = toString (totalItems s.cart) ∧
    (updateCartUI h s).dom.cartCountDisplay =
      (if totalItems s.cart > 0 then Display.flex else Display.none) ∧
    (updateCartUI h s).dom.cartItemsHTML =
      (if s.cart.length = 0 then ItemsMarkup.emptyCart else ItemsMarkup.rows s.cart) ∧
    (updateCartUI h s).dom.cartSummaryDisplay =
      (if s.cart.length = 0 then Display.none else Display.block) := by
  unfold updateCartUI updateCartTotal updateCartItems updateCartCount
  simp only [hc, hi, hsum, if_true, Bool.not_true, Bool.false_eq_true, if_false]
  by_cases hlen : s.cart.length = 0 <;> by_cases ht : h.cartTotal = true <;> simp [hlen, ht]

theorem JSNum.add_nan_right (x : JSNum) : JSNum.add x JSNum.nan = JSNum.nan := by
  cases x <;> rfl

theorem JSNum.mul_nan_left (x : JSNum) : JSNum.mul JSNum.nan x = JSNum.nan := by
  cases x <;> rfl

/-- Once the running sum is `NaN` it stays `NaN`. -/
theorem foldl_total_nan (cart : List LineItem) :
    cart.foldl
      (fun sum item => JSNum.add sum (JSNum.mul (parseFloat item.price) (JSNum.ofInt item.quantity)))
      JSNum.nan = JSNum.nan := by
  induction cart with
  | nil => rfl
  | cons a rest ih => simpa [List.foldl, JSNum.add] using ih

/-- A price that parses to `NaN` makes the running sum `NaN`, from any start. -/
theorem foldl_total_of_nan_price (cart : List LineItem)
    (hbad : ∃ item ∈ cart, parseFloat item.price = JSNum.nan) :
    ∀ start : JSNum, cart.foldl
      (fun sum item => JSNum.add sum (JSNum.mul (parseFloat item.price) (JSNum.ofInt item.quantity)))
      start = JSNum.nan := by
  induction cart with
  | nil => obtain ⟨item, hmem, -⟩ := hbad; simp at hmem
  | cons a rest ih =>
    intro start
    obtain ⟨item, hmem, hnan⟩ := hbad
    rcases List.mem_cons.mp hmem with rfl | hmem
    · simp only [List.foldl, hnan, JSNum.mul_nan_left, JSNum.add_nan_right]
      exact foldl_total_nan rest
    · simp only [List.foldl]
      exact ih ⟨item, hmem, hnan⟩ _

theorem updateCartUI_totalText (h : Host) (s : State) (hel : h.cartTotal = true) :
    (updateCartUI h s).dom.cartTotalText = toFixed (cartTotalValue s.cart) 2 := by
  simp [updateCartUI, updateCartTotal, hel]

theorem updateCartUI_countText (h : Host) (s : State) (hc : h.cartCount = true) :
    (updateCartUI h s).dom.cartCountText = toString (totalItems s.cart) := by
  unfold updateCartUI updateCartTotal updateCartItems updateCartCount
  simp only [hc, if_true]
  split <;> split <;> (try split) <;> (try split) <;> rfl

theorem showNotification_texts (h : Host) (s : State) :
    (showNotification h s).dom.cartTotalText = s.dom.cartTotalText ∧
      (showNotification h s).dom.cartCountText = s.dom.cartCountText := by
  unfold showNotification; split <;> exact ⟨rfl, rfl⟩

/-- The texts `addToCart` leaves in the total display and the badge. -/
theorem addToCart_texts (h : Host) (now rnd : JSNum) (product : Product) (s : State)
    (hel : h.cartTotal = true) (hc : h.cartCount = true) :
    (addToCart h now rnd product s).dom.cartTotalText =
        toFixed (cartTotalValue (addToCart h now rnd product s).cart) 2 ∧
      (addToCart h now rnd product s).dom.cartCountText =
        toString (totalItems (addToCart h now rnd product s).cart) := by
  unfold addToCart
  cases s.cart.find? (fun item => item.name == product.name) <;>
    simp only [(showNotification_texts _ _).1, (showNotification_texts _ _).2,
      updateCartUI_totalText _ _ hel, updateCartUI_countText _ _ hc, saveCart_cart,
      showNotification_cart, updateCartUI_cart, and_self]

theorem cartTotalValue_singleton (item : LineItem) :
    cartTotalValue [item] =
      JSNum.add (JSNum.fin 0) (JSNum.mul (parseFloat item.price) (JSNum.ofInt item.quantity)) := by
  simp [cartTotalValue]

theorem totalItems_singleton (item : LineItem) : totalItems [item] = 0 + item.quantity := by
  simp [totalItems]

/-- The bounded case of the total: few enough lines of whole-cents prices and
a total of at most `10^9` print exactly. -/
theorem toFixed_total_exact (cart : List LineItem) (hlen : cart.length ≤ 1000)
    (hitems : ∀ item ∈ cart, Priced item) (hM : exactTotal cart ≤ 10 ^ 9) :
    toFixed (cartTotalValue cart) 2 = twoDecimals (exactTotal cart) := by
  obtain ⟨r, hr, hr0, hrerr⟩ := foldl_total_error cart 0 0 0 hitems le_rfl le_rfl (by simp)
    (by simpa using hM) (by simpa using hlen)
  obtain ⟨C, hC⟩ := exactTotal_cents cart hitems
  have hE0 := exactTotal_nonneg cart hitems
  have hlen' : ((0 + cart.length : ℕ) : ℚ) / 10 ^ 6 ≤ 1 / 1000 := by
    have : ((0 + cart.length : ℕ) : ℚ) ≤ 1000 := by
      have : 0 + cart.length ≤ 1000 := by omega
      exact_mod_cast this
    have := div_le_div_of_nonneg_right this (show (0 : ℚ) ≤ 10 ^ 6 by positivity)
    have h2 : (1000 : ℚ) / 10 ^ 6 = 1 / 1000 := by norm_num
    linarith
  rw [zero_add, hC] at hrerr
  have hlo := (abs_le.mp (hrerr.trans hlen')).1
  have hhi := (abs_le.mp (hrerr.trans hlen')).2
  have hfloor_code : ⌊r * 10 ^ 2 + 1 / 2⌋ = (C : ℤ) := by
    rw [Int.floor_eq_iff]
    constructor
    · push_cast; linarith
    · push_cast; linarith
  have hfloor_spec : ⌊|((C : ℚ) / 100)| * 100 + 1 / 2⌋ = (C : ℤ) := by
    rw [abs_of_nonneg (by positivity), Int.floor_eq_iff]
    constructor
    · push_cast; linarith
    · push_cast; linarith
  have hnotneg : ¬ r < 0 := not_lt.mpr hr0
  have hsmall : ¬ (10 : ℚ) ^ (21 : ℕ) ≤ r := by
    rw [hC] at hM
    have : (10 : ℚ) ^ 9 + 1 < 10 ^ (21 : ℕ) := by norm_num
    intro hbig
    linarith
  have hspecneg : ¬ ((C : ℚ) / 100 < 0) := not_lt.mpr (by positivity)
  unfold cartTotalValue
  rw [hr, hC]
  unfold toFixed twoDecimals
  simp only [hnotneg, if_false, hsmall, hfloor_code, Int.toNat_ofNat, hfloor_spec, hspecneg]
  simp only [show (2 : ℕ) ≠ 0 by norm_num, if_false, insertPoint_two]

/-! ## Claims -/

/-- C2. Name-uniqueness invariant: in every cart reached from the empty cart by
a finite sequence of the four operations, no two line items have the same name. -/
theorem name_uniqueness_invariant (h : Host) (storage : Option String) (dom : Dom)
    (ops : List Op) :
    ((run h (emptyCartState storage dom) ops).cart.map (fun item => item.name)).Nodup :=
  run_namesDistinct h ops (emptyCartState storage dom) (by simp [NamesDistinct, emptyCartState])

/-- C10. Unknown id: when no line item has the given id, `removeFromCart(id)`
leaves the sequence of line items as it was, and `updateQuantity(id, change)`
leaves the whole state as it was, for every integer change; both are total. -/
theorem unknown_id_noop (h : Host) (s : State) (productId : JSNum) (change : Int)
    (hno : ∀ item ∈ s.cart, JSNum.strictEq item.id productId = false) :
    (removeFromCart h productId s).cart = s.cart ∧
      updateQuantity h productId change s = s := by
  constructor
  · rw [removeFromCart_cart, List.filter_eq_self]
    intro item hmem
    simp [hno item hmem]
  · have hfind : s.cart.find? (fun item => JSNum.strictEq item.id productId) = none := by
      rw [List.find?_eq_none]
      intro x hx
      simp [hno x hx]
    unfold updateQuantity
    rw [hfind]

/-- Witness for C10: an id no line carries. -/
theorem unknown_id_noop_witness :
    (removeFromCart demoHost (JSNum.fin 7)
        { emptyCartState none demoDom with cart := [maskLine 3] }).cart = [maskLine 3] ∧
      updateQuantity demoHost (JSNum.fin 7) (-5)
          { emptyCartState none demoDom with cart := [maskLine 3] } =
        { emptyCartState none demoDom with cart := [maskLine 3] } :=
  unknown_id_noop demoHost { emptyCartState none demoDom with cart := [maskLine 3] }
    (JSNum.fin 7) (-5) (by decide!)

/-- C6 fails on the code: two `addToCart` calls for different products that
read the same clock value and the same random value give two line items with
the same id, and `removeFromCart` on that id then deletes both. The same id
also results from different random values within one millisecond, since the
sum is rounded to a multiple of 2^-12 at this magnitude. -/
theorem id_collision :
    (run demoHost (emptyCartState none demoDom)
        [Op.addToCart demoNow demoRnd mask, Op.addToCart demoNow demoRnd gloves]).cart.map
        (fun item => (item.name, item.id)) = [("Mask", demoId), ("Gloves", demoId)] ∧
      (removeFromCart demoHost demoId (run demoHost (emptyCartState none demoDom)
        [Op.addToCart demoNow demoRnd mask, Op.addToCart demoNow demoRnd gloves])).cart = [] ∧
      JSNum.add demoNow (parseFloat "0.50001") = JSNum.add demoNow demoRnd := by
  decide!

/-- C4, as stated, fails: with a mask at 9.99 and a line whose price text is
`free`, the total display reads `NaN`, not the `9.99` of the remaining item. -/
theorem nan_price_not_skipped :
    parseFloat giftLine.price = JSNum.nan ∧
      (updateCartTotal demoHost
        { emptyCartState none demoDom with cart := [maskLine 1, giftLine] }).dom.cartTotalText = "NaN" ∧
      (updateCartTotal demoHost
        { emptyCartState none demoDom with cart := [maskLine 1] }).dom.cartTotalText = "9.99" := by
  decide!

/-- C4, amended. The text `updateCartTotal` writes is `toFixed(2)` of the
left-to-right Number sum of `parseFloat(price) * quantity`; a line item whose
price fails numeric parsing turns that sum into `NaN`, so for every cart
holding such an item the total display reads `NaN`, and so does the total in
the message of `checkout`. -/
theorem nan_price_gives_nan_total (h : Host) (s : State) (hel : h.cartTotal = true)
    (hbad : ∃ item ∈ s.cart, parseFloat item.price = JSNum.nan) :
    (updateCartTotal h s).dom.cartTotalText = toFixed (cartTotalValue s.cart) 2 ∧
      cartTotalValue s.cart = JSNum.nan ∧
      (updateCartTotal h s).dom.cartTotalText = "NaN" ∧
      (checkout h s).alerts = s.alerts ++ ["Checkout total: $" ++ "NaN" ++ checkoutNote] := by
  have hnan : cartTotalValue s.cart = JSNum.nan := foldl_total_of_nan_price s.cart hbad _
  have hne : s.cart.length ≠ 0 := by
    obtain ⟨item, hmem, -⟩ := hbad
    exact List.length_pos.mp (List.length_pos_of_mem hmem) |> fun hne => by
      simpa [List.length_eq_zero] using hne
  refine ⟨by simp [updateCartTotal, hel], hnan, by simp [updateCartTotal, hel, hnan, toFixed], ?_⟩
  unfold checkout
  simp only [hne, if_false, hnan, toFixed]
  unfold closeCartModal clearCart saveCart
  split <;> simp

/-- Witness for C4 amended: the cart with the mask and the `free` gift. -/
theorem nan_price_gives_nan_total_witness :
    (updateCartTotal demoHost
      { emptyCartState none demoDom with cart := [maskLine 1, giftLine] }).dom.cartTotalText = "NaN" :=
  (nan_price_gives_nan_total demoHost
    { emptyCartState none demoDom with cart := [maskLine 1, giftLine] } rfl
    ⟨giftLine, by decide!, by decide!⟩).2.2.1

/-- C8, as stated, fails. A price of 2^53 + 1 parses as a decimal number, yet
the display shows the total one unit lower, since the price is rounded to
binary64 before it is summed; and a price of 10^21 is displayed in exponent
form, without two decimal places. -/
theorem total_display_not_exact :
    strDecimalLiteral bondLine.price = StrNumeric.decimal 9007199254740993 ∧
      (updateCartTotal demoHost
        { emptyCartState none demoDom with cart := [bondLine] }).dom.cartTotalText =
        "9007199254740992.00" ∧
      twoDecimals (exactTotal [bondLine]) = "9007199254740993.00" ∧
      strDecimalLiteral vaultLine.price = StrNumeric.decimal 1000000000000000000000 ∧
      (updateCartTotal demoHost
        { emptyCartState none demoDom with cart := [vaultLine] }).dom.cartTotalText = "1e+21" ∧
      twoDecimals (exactTotal [vaultLine]) = "1000000000000000000000.00" := by
  decide!

/-- C8, amended. For every cart of at most 1000 line items whose prices are
unsigned decimals with at most two fractional digits, whose quantities lie
between 1 and 10^9 and whose exact total is at most 10^9, the text
`updateCartTotal` writes is the exact sum of price × quantity printed with
exactly two decimal places; for the empty cart it is `0.00`; and after adding
the mask at `9.99` twice to the empty cart the cart is one mask line of
quantity 2, the total reads `19.98` and the badge reads `2`. -/
theorem total_display_bounded (h : Host) (hel : h.cartTotal = true) :
    (∀ s : State, s.cart.length ≤ 1000 → (∀ item ∈ s.cart, Priced item) →
        exactTotal s.cart ≤ 10 ^ 9 →
        (updateCartTotal h s).dom.cartTotalText = twoDecimals (exactTotal s.cart)) ∧
    (∀ s : State, s.cart = [] → (updateCartTotal h s).dom.cartTotalText = "0.00") ∧
    (∀ (storage : Option String) (dom : Dom) (now rnd now2 rnd2 : JSNum), h.cartCount = true →
        (addToCart h now2 rnd2 mask
            (addToCart h now rnd mask (emptyCartState storage dom))).cart =
          [{ newLineItem mask (JSNum.add now rnd) with quantity := 2 }] ∧
        (addToCart h now2 rnd2 mask
            (addToCart h now rnd mask (emptyCartState storage dom))).dom.cartTotalText = "19.98" ∧
        (addToCart h now2 rnd2 mask
            (addToCart h now rnd mask (emptyCartState storage dom))).dom.cartCountText = "2") := by
  refine ⟨?_, ?_, ?_⟩
  · intro s hlen hitems hM
    have : (updateCartTotal h s).dom.cartTotalText = toFixed (cartTotalValue s.cart) 2 := by
      simp [updateCartTotal, hel]
    rw [this]
    exact toFixed_total_exact s.cart hlen hitems hM
  · intro s hs
    have : (updateCartTotal h s).dom.cartTotalText = toFixed (cartTotalValue s.cart) 2 := by
      simp [updateCartTotal, hel]
    rw [this, hs]
    decide!
  · intro storage dom now rnd now2 rnd2 hc
    have hcart : (addToCart h now2 rnd2 mask
        (addToCart h now rnd mask (emptyCartState storage dom))).cart =
        [{ newLineItem mask (JSNum.add now rnd) with quantity := 2 }] := by
      simp [addToCart_cart, emptyCartState, mutateFirst, newLineItem, mask]
    obtain ⟨htotal, hcount⟩ := addToCart_texts h now2 rnd2 mask
      (addToCart h now rnd mask (emptyCartState storage dom)) hel hc
    refine ⟨hcart, ?_, ?_⟩
    · rw [htotal, hcart, cartTotalValue_singleton]
      show toFixed (JSNum.add (JSNum.fin 0) (JSNum.mul (parseFloat "9.99") (JSNum.ofInt 2))) 2 =
        "19.98"
      decide!
    · rw [hcount, hcart, totalItems_singleton]
      show toString ((0 : Int) + 2) = "2"
      decide

/-- Witness for C8 amended: two masks at 9.99 on the demo page. -/
theorem total_display_bounded_witness :
    (updateCartTotal demoHost
        { emptyCartState none demoDom with cart := [maskLine 2] }).dom.cartTotalText =
      twoDecimals (exactTotal [maskLine 2]) ∧
    twoDecimals (exactTotal [maskLine 2]) = "19.98" :=
  ⟨(total_display_bounded demoHost rfl).1
      { emptyCartState none demoDom with cart := [maskLine 2] } (by decide)
      (by
        intro item hmem
        have : item = maskLine 2 := by simpa using hmem
        subst this
        exact ⟨by decide, by decide, 999, by decide!⟩)
      (by decide!),
   by decide!⟩

end BioShield
